import Mathlib

/-!
Verification of the IncludeOS `http` parsing core
(`src/inc/request_line.hpp`, `src/inc/response.hpp`).

Strings are shallowly embedded as `List Char`; the `std::string` search
primitives (`find`, `find_first_of`, `find_last_of`, `find_first_not_of`,
`substr`) are modelled with `Option Nat` results, and every place where the
C++ arithmetic on `std::string::npos` (a `size_t` of all ones) wraps around
is translated explicitly at its use site (`npos + 1 = 0`, `npos + 2 = 1`),
matching the unsigned machine arithmetic of the source.  Fallible
computations return `PR`, whose `exn` constructor carries the C++ exception
class that would propagate out of the constructor.
-/

namespace HttpSpec

/-- Character list of a Lean string literal, used to write test inputs. -/
def str (s : String) : List Char := s.data

/-- The exception classes that can escape the parsing code:
`std::out_of_range` (from `substr` past the end, or `std::stoul` overflow)
and `std::invalid_argument` (from `std::stoul` finding no digits). -/
inductive CppExc where
  | outOfRange
  | invalidArgument
deriving DecidableEq

/-- Result of a C++ computation that can throw: either a value or an
escaping exception. -/
inductive PR (α : Type) where
  | ok : α → PR α
  | exn : CppExc → PR α
deriving DecidableEq

/-- Boolean test that `pat` is a prefix of `l` (the match test used by
`std::string::find` at a candidate position). -/
def leadsWith : List Char → List Char → Bool
  | [], _ => true
  | _ :: _, [] => false
  | p :: ps, c :: cs => p = c && leadsWith ps cs

/-- Model of `std::string::find(pattern)`: index of the first occurrence of
`pat` in `l`, `none` for `npos`. -/
def findSub : List Char → List Char → Option Nat
  | [], pat => if pat.isEmpty then some 0 else none
  | c :: cs, pat =>
    if leadsWith pat (c :: cs) then some 0
    else (findSub cs pat).map (· + 1)

/-- Model of `std::string::find_first_of(t)` for a one-character set:
index of the first occurrence of the character `t`, `none` for `npos`. -/
def findFirstOf : List Char → Char → Option Nat
  | [], _ => none
  | c :: cs, t => if c = t then some 0 else (findFirstOf cs t).map (· + 1)

/-- Model of `std::string::find_last_of(t)` for a one-character set:
index of the last occurrence of `t`, `none` for `npos`. -/
def findLastOf (l : List Char) (t : Char) : Option Nat :=
  match findFirstOf l.reverse t with
  | some i => some (l.length - 1 - i)
  | none => none

/-- Model of `std::string::find_first_not_of(set)`: index of the first
character not in `set`, `none` for `npos`. -/
def findFirstNotOf : List Char → List Char → Option Nat
  | [], _ => none
  | c :: cs, set =>
    if c ∈ set then (findFirstNotOf cs set).map (· + 1) else some 0

/-- The whitespace set `"\f\t\v "` passed to `find_first_not_of` at
request_line.hpp:152. -/
def wsTrim : List Char := ['\x0c', '\t', '\x0b', ' ']

/-- The line terminator `"\r\n"`. -/
def crlf : List Char := ['\r', '\n']

/-- Whitespace in the `"C"` locale, skipped by `std::stoul` before the
digits (`std::isspace`). -/
def isSpaceC (c : Char) : Bool :=
  c = ' ' || c = '\t' || c = '\n' || c = '\x0b' || c = '\x0c' || c = '\r'

/-- `ULONG_MAX` on the 64-bit targets the unikernel builds for. -/
def ULONGMAX : Nat := 2 ^ 64 - 1

/-- Digit run converted to its numeric value, as `strtoul` accumulates it. -/
def digitsVal (ds : List Char) : Nat :=
  ds.foldl (fun a c => a * 10 + (c.toNat - 48)) 0

/-- Core of `std::stoul` after whitespace and sign handling: take the
leading digit run; no digits is `std::invalid_argument`; a value beyond
`ULONG_MAX` is `std::out_of_range`; a negated value wraps modulo 2^64 as
`strtoul` specifies. -/
def stoulCore (r : List Char) (neg : Bool) : PR Nat :=
  let ds := r.takeWhile Char.isDigit
  if ds.isEmpty then .exn .invalidArgument
  else
    let v := digitsVal ds
    if v ≤ ULONGMAX then
      .ok (if neg then (ULONGMAX + 1 - v) % (ULONGMAX + 1) else v)
    else .exn .outOfRange

/-- Model of `std::stoul` (base 10): skip C-locale whitespace, accept one
optional sign, then convert the digit run. -/
def stoulL (s : List Char) : PR Nat :=
  match s.dropWhile isSpaceC with
  | [] => stoulCore [] false
  | c :: r =>
    if c = '+' then stoulCore r false
    else if c = '-' then stoulCore r true
    else stoulCore (c :: r) false

/-- Truncation applied by `static_cast<unsigned>` at request_line.hpp:167. -/
def UINTMOD : Nat := 2 ^ 32

/-- The request-line value object (request_line.hpp:139-141).  The `Method`
and `URI` collaborators are constructible from a token string and store it
(spec §6), so both are embedded as the stored character list. -/
structure Request_Line where
  method_ : List Char
  uri_ : List Char
  version_ : Nat × Nat
deriving DecidableEq

/-- The default request-line `<GET / HTTP/1.1>` from the member
initializers at request_line.hpp:139-141. -/
def defaultRequestLine : Request_Line := ⟨str "GET", str "/", (1, 1)⟩

/-- Line 152: `request.substr(request.find_first_not_of("\f\t\v "))`.
When `find_first_not_of` returns `npos`, `substr(npos)` throws
`std::out_of_range` because `npos > size()`. -/
def trimStart (request : List Char) : PR (List Char) :=
  match findFirstNotOf request wsTrim with
  | none => .exn .outOfRange
  | some t => .ok (request.drop t)

/-- Line 154: `start.substr(0, start.find("\r\n"))`; a count of `npos`
takes the whole string. -/
def lineOf (start : List Char) : List Char :=
  match findSub start crlf with
  | some p => start.take p
  | none => start

/-- Line 156: `rl.substr(0, rl.find_first_of(" "))`; a count of `npos`
takes the whole string. -/
def methodOf (rl : List Char) : List Char :=
  match findFirstOf rl ' ' with
  | some i => rl.take i
  | none => rl

/-- Line 158: `rl.substr(rl.find_first_of(" ") + 1)`; when the find
returns `npos`, `npos + 1` wraps to `0`, so the string is unchanged. -/
def afterMethod (rl : List Char) : List Char :=
  match findFirstOf rl ' ' with
  | some i => rl.drop (i + 1)
  | none => rl

/-- Line 160: `rl.substr(0, rl.find_last_of(" "))`; a count of `npos`
takes the whole string. -/
def uriOf (rl : List Char) : List Char :=
  match findLastOf rl ' ' with
  | some i => rl.take i
  | none => rl

/-- Line 162: `rl.substr(rl.find_last_of(" ") + 1)`; when the find
returns `npos`, `npos + 1` wraps to `0`, so the string is unchanged. -/
def afterUri (rl : List Char) : List Char :=
  match findLastOf rl ' ' with
  | some i => rl.drop (i + 1)
  | none => rl

/-- Line 164: `rl.substr(rl.find("/") + 1, rl.find("."))`.  The second
argument of `substr` is a count, here the position of the first dot; a
position of `npos` wraps to start `0` and a count of `npos` is clamped to
the rest of the string. -/
def majorStrOf (rl : List Char) : List Char :=
  (match findSub rl ['/'] with
    | some i => rl.drop (i + 1)
    | none => rl).take
  (match findSub rl ['.'] with
    | some j => j
    | none => rl.length)

/-- Line 165: `rl.substr(rl.find(".") + 1)`; a position of `npos` wraps
to `0`, so the string is unchanged. -/
def minorStrOf (rl : List Char) : List Char :=
  match findSub rl ['.'] with
  | some j => rl.drop (j + 1)
  | none => rl

/-- Lines 164-170: extract and convert the major and minor version numbers
from the version token, truncating each through `static_cast<unsigned>`. -/
def versionOfTok (tok : List Char) : PR (Nat × Nat) :=
  match stoulL (majorStrOf tok) with
  | .exn e => .exn e
  | .ok maj =>
    match stoulL (minorStrOf tok) with
    | .exn e => .exn e
    | .ok mn => .ok (maj % UINTMOD, mn % UINTMOD)

/-- Line 172: `request.substr(request.find("\r\n") + 2)`.  When the find
returns `npos`, `npos + 2` wraps to `1`, so the buffer is advanced by
exactly one character. -/
def consumeLine (request : List Char) : List Char :=
  match findSub request crlf with
  | some p => request.drop (p + 2)
  | none => request.drop 1

/-- Shallow embedding of the parsing constructor
`Request_Line::Request_Line(Request&&)` (request_line.hpp:146-173).  The
result pairs the constructed object with the caller's buffer after the
constructor returns; an escaping exception is an `exn` value. -/
def requestLineCtor (request : List Char) : PR (Request_Line × List Char) :=
  if request.length < 16 then .ok (defaultRequestLine, request)
  else
    match trimStart request with
    | .exn e => .exn e
    | .ok start =>
      match versionOfTok (afterUri (afterMethod (lineOf start))) with
      | .exn e => .exn e
      | .ok v =>
        .ok (⟨methodOf (lineOf start), uriOf (afterMethod (lineOf start)), v⟩,
          consumeLine request)

/-- Digits of a natural number, used to render a parsed version. -/
def natChars (n : Nat) : List Char := Nat.toDigits 10 n

/-- Modelled from the spec: the `operator<<` forms of the `Method`, `URI`
and `Version` collaborators (methods.hpp, version.hpp, not under src/).
Per spec §3/§6 a `Version` renders as `HTTP/<major>.<minor>`, and method
and URI render as their stored token. -/
def versionChars (v : Nat × Nat) : List Char :=
  str "HTTP/" ++ natChars v.1 ++ str "." ++ natChars v.2

/-- Shallow embedding of `Request_Line::operator std::string`
(request_line.hpp:203-211): `method_ << " " << uri_ << " " << version_ <<
"\r\n"`, with the collaborator stream forms modelled from the spec. -/
def rlToString (r : Request_Line) : List Char :=
  r.method_ ++ str " " ++ r.uri_ ++ str " " ++ versionChars r.version_ ++ crlf

/-- The header/body separator `"\r\n\r\n"` searched first at
response.hpp:155. -/
def crlf4 : List Char := ['\r', '\n', '\r', '\n']

/-- The lenient fallback separator `"\n\n"` searched at response.hpp:157. -/
def lf2 : List Char := ['\n', '\n']

/-- The response message object: status line fields (code and version,
spec §6 status-line collaborator), the header set and the body owned
through the `Message` collaborator.  The body is a `std::string`, empty
until `add_body` is called. -/
structure Response where
  code : Nat
  version : Nat × Nat
  headers : List (List Char × List Char)
  body : List Char
deriving DecidableEq

/-- A default-constructed `Response` (response.hpp:48,144-146): status
code `OK` = 200 and a default `Version`, which per spec §6 is (1,1). -/
def defaultResponse : Response := ⟨200, (1, 1), [], []⟩

/-- Modelled from the spec: the Status-line collaborator (status_line.hpp
is not under src/) parses `VERSION CODE REASON` from the first line of the
buffer with the same line-tokenizing discipline as §4.1: the version token
runs to the first space and splits positionally at `/` and `.`, the code
token is the following space-delimited token converted with the numeric
parser; the reason phrase carries no state beyond the code (§6 exposes
only get/set code and version). -/
def statusLineVC (response : List Char) : PR ((Nat × Nat) × Nat) :=
  let line := lineOf response
  match versionOfTok (methodOf line) with
  | .exn e => .exn e
  | .ok v =>
    match stoulL (methodOf (afterMethod line)) with
    | .exn e => .exn e
    | .ok c => .ok (v, c)

/-- Modelled from the spec: the Status-line collaborator consumes the
status line and its terminator from the buffer (§4.1 consume discipline
applied by §4.2 step 1), leaving the header section for `add_headers`. -/
def statusLineRemainder (response : List Char) : List Char :=
  match findSub response crlf with
  | some p => response.drop (p + 2)
  | none => []

/-- Header lines of the buffer up to the first empty line, peeled with the
line discipline; recursion is fuelled by the buffer length. -/
def headerLinesAux : Nat → List Char → List (List Char)
  | 0, _ => []
  | _, [] => []
  | fuel + 1, s =>
    let line := lineOf s
    if line.isEmpty then []
    else line :: headerLinesAux fuel (statusLineRemainder s)

/-- Modelled from the spec: one header field `Name: value` split at the
colon, the value stripped of leading spaces (§8 example yields
`("Content-Length", "5")`). -/
def headerField (line : List Char) : List Char × List Char :=
  match findFirstOf line ':' with
  | some i => (line.take i, (line.drop (i + 1)).dropWhile (fun c => c == ' '))
  | none => (line, [])

/-- Modelled from the spec: `Message::add_headers` (message.hpp is not
under src/) collects the header fields of the section before the blank
line, bounded by the field-count `limit`, without consuming the buffer. -/
def parseHeaders (rem : List Char) (limit : Nat) : List (List Char × List Char) :=
  ((headerLinesAux rem.length rem).take limit).map headerField

/-- Lines 154-159 of response.hpp: locate the header/body boundary by
searching for `"\r\n\r\n"` first and `"\n\n"` second, and take everything
after the located separator as the body; with no separator `add_body` is
never called and the body stays empty. -/
def locateBody (rem : List Char) : List Char :=
  match findSub rem crlf4 with
  | some p => rem.drop (p + 4)
  | none =>
    match findSub rem lf2 with
    | some q => rem.drop (q + 2)
    | none => []

/-- Shallow embedding of the parsing constructor
`Response::Response(Egress&&, Limit)` (response.hpp:148-160): the
status-line collaborator consumes the first line, `add_headers` reads the
remainder, and the body is located in that same remainder. -/
def responseCtor (response : List Char) (limit : Nat) : PR Response :=
  match statusLineVC response with
  | .exn e => .exn e
  | .ok vc =>
    let rem := statusLineRemainder response
    .ok ⟨vc.2, vc.1, parseHeaders rem limit, locateBody rem⟩

/-- `Response::set_status_code` (response.hpp:166-169). -/
def Response.set_status_code (r : Response) (c : Nat) : Response :=
  { r with code := c }

/-- `Response::reset` (response.hpp:171-174): `Message::reset()` clears
the header set and the body (modelled from the spec, message.hpp is not
under src/), then `set_status_code(OK)` restores the code to 200.  The
status line's version field is not touched. -/
def Response.reset (r : Response) : Response :=
  { r with code := 200, headers := [], body := [] }

/-- First occurrence of `pat` in `l`, written from the spec's words as the
least position whose suffix starts with `pat` (used to state the claims
about boundary location independently of `findSub`). -/
def firstOcc (pat l : List Char) : Option Nat :=
  (List.range (l.length + 1)).find? (fun i => leadsWith pat (l.drop i))

/-- Body location as the spec describes it: the entirety of the buffer
after the first `"\r\n\r\n"`, else after the first `"\n\n"`, else no body. -/
def bodySpec (rem : List Char) : List Char :=
  match firstOcc crlf4 rem with
  | some p => rem.drop (p + 4)
  | none =>
    match firstOcc lf2 rem with
    | some q => rem.drop (q + 2)
    | none => []

/-- The letters used by the structurally-unrecognizable buffers of C3. -/
def letters : List Char :=
  str "ABCDEFGHIJKLMNOPQRSTUVWXYZabcdefghijklmnopqrstuvwxyz"

theorem findFirstOf_none {t : Char} {l : List Char} (h : t ∉ l) :
    findFirstOf l t = none := by
  induction l with
  | nil => rfl
  | cons c cs ih =>
    have hct : ¬ c = t := fun hc => h (hc ▸ List.mem_cons_self c cs)
    have : t ∉ cs := fun hm => h (List.mem_cons_of_mem c hm)
    simp [findFirstOf, hct, ih this]

theorem findFirstOf_append {t : Char} {l : List Char} (r : List Char)
    (h : t ∉ l) : findFirstOf (l ++ t :: r) t = some l.length := by
  induction l with
  | nil => simp [findFirstOf]
  | cons c cs ih =>
    have hct : ¬ c = t := fun hc => h (hc ▸ List.mem_cons_self c cs)
    have hcs : t ∉ cs := fun hm => h (List.mem_cons_of_mem c hm)
    simp [findFirstOf, hct, ih hcs]

theorem findLastOf_none {t : Char} {l : List Char} (h : t ∉ l) :
    findLastOf l t = none := by
  unfold findLastOf
  rw [findFirstOf_none (by simpa using h)]

theorem findLastOf_append {t : Char} (u : List Char) {v : List Char}
    (h : t ∉ v) : findLastOf (u ++ t :: v) t = some u.length := by
  unfold findLastOf
  have hrv : t ∉ v.reverse := by simpa using h
  have hsplit : (u ++ t :: v).reverse = v.reverse ++ t :: u.reverse := by
    simp
  rw [hsplit, findFirstOf_append _ hrv]
  simp only [List.length_reverse, List.length_append, List.length_cons]
  congr 1
  omega

theorem findSub_crlf_none {l : List Char} (h : '\r' ∉ l) :
    findSub l crlf = none := by
  induction l with
  | nil => rfl
  | cons c cs ih =>
    have hc : ¬ ('\r' = c) := fun hc => h (hc ▸ List.mem_cons_self c cs)
    have hcs : '\r' ∉ cs := fun hm => h (List.mem_cons_of_mem c hm)
    simp [findSub, leadsWith, crlf, hc]
    exact ih hcs

theorem findSub_crlf_append {x : List Char} (r : List Char)
    (h : '\r' ∉ x) : findSub (x ++ '\r' :: '\n' :: r) crlf = some x.length := by
  induction x with
  | nil => simp [findSub, leadsWith, crlf]
  | cons c cs ih =>
    have hc : ¬ ('\r' = c) := fun hc => h (hc ▸ List.mem_cons_self c cs)
    have hcs : '\r' ∉ cs := fun hm => h (List.mem_cons_of_mem c hm)
    simp [findSub, leadsWith, crlf, hc]
    exact ih hcs

theorem findSub_single_none {t : Char} {l : List Char} (h : t ∉ l) :
    findSub l [t] = none := by
  induction l with
  | nil => rfl
  | cons c cs ih =>
    have hc : ¬ (t = c) := fun hc => h (hc ▸ List.mem_cons_self c cs)
    have hcs : t ∉ cs := fun hm => h (List.mem_cons_of_mem c hm)
    simp [findSub, leadsWith, hc, ih hcs]

theorem findSub_single_append {t : Char} {x : List Char} (r : List Char)
    (h : t ∉ x) : findSub (x ++ t :: r) [t] = some x.length := by
  induction x with
  | nil => simp [findSub, leadsWith]
  | cons c cs ih =>
    have hc : ¬ (t = c) := fun hc => h (hc ▸ List.mem_cons_self c cs)
    have hcs : t ∉ cs := fun hm => h (List.mem_cons_of_mem c hm)
    simp [findSub, leadsWith, hc, ih hcs]

theorem findFirstNotOf_none {l set : List Char} (h : ∀ c ∈ l, c ∈ set) :
    findFirstNotOf l set = none := by
  induction l with
  | nil => rfl
  | cons c cs ih =>
    have hc : c ∈ set := h c (List.mem_cons_self c cs)
    have hcs : ∀ d ∈ cs, d ∈ set := fun d hd => h d (List.mem_cons_of_mem c hd)
    simp [findFirstNotOf, hc, ih hcs]

theorem trimStart_cons {c : Char} (l : List Char) (h : c ∉ wsTrim) :
    trimStart (c :: l) = .ok (c :: l) := by
  simp [trimStart, findFirstNotOf, h]

theorem lineOf_append {x : List Char} (r : List Char) (h : '\r' ∉ x) :
    lineOf (x ++ '\r' :: '\n' :: r) = x := by
  unfold lineOf
  rw [findSub_crlf_append r h]
  exact List.take_left x _

theorem lineOf_no_crlf {l : List Char} (h : '\r' ∉ l) : lineOf l = l := by
  unfold lineOf
  rw [findSub_crlf_none h]

theorem consumeLine_append {x : List Char} (r : List Char) (h : '\r' ∉ x) :
    consumeLine (x ++ '\r' :: '\n' :: r) = r := by
  unfold consumeLine
  rw [findSub_crlf_append r h]
  show List.drop (x.length + 2) (x ++ '\r' :: '\n' :: r) = r
  rw [List.drop_append 2]
  rfl

theorem methodOf_append {m : List Char} (r : List Char) (h : ' ' ∉ m) :
    methodOf (m ++ ' ' :: r) = m := by
  unfold methodOf
  rw [findFirstOf_append r h]
  exact List.take_left m _

theorem methodOf_no_space {l : List Char} (h : ' ' ∉ l) : methodOf l = l := by
  unfold methodOf
  rw [findFirstOf_none h]

theorem afterMethod_append {m : List Char} (r : List Char) (h : ' ' ∉ m) :
    afterMethod (m ++ ' ' :: r) = r := by
  unfold afterMethod
  rw [findFirstOf_append r h]
  show List.drop (m.length + 1) (m ++ ' ' :: r) = r
  rw [List.drop_append 1]
  rfl

theorem afterMethod_no_space {l : List Char} (h : ' ' ∉ l) :
    afterMethod l = l := by
  unfold afterMethod
  rw [findFirstOf_none h]

theorem uriOf_append (u : List Char) {v : List Char} (h : ' ' ∉ v) :
    uriOf (u ++ ' ' :: v) = u := by
  unfold uriOf
  rw [findLastOf_append u h]
  exact List.take_left u _

theorem uriOf_no_space {l : List Char} (h : ' ' ∉ l) : uriOf l = l := by
  unfold uriOf
  rw [findLastOf_none h]

theorem afterUri_append (u : List Char) {v : List Char} (h : ' ' ∉ v) :
    afterUri (u ++ ' ' :: v) = v := by
  unfold afterUri
  rw [findLastOf_append u h]
  show List.drop (u.length + 1) (u ++ ' ' :: v) = v
  rw [List.drop_append 1]
  rfl

theorem afterUri_no_space {l : List Char} (h : ' ' ∉ l) : afterUri l = l := by
  unfold afterUri
  rw [findLastOf_none h]

theorem majorStrOf_id {l : List Char} (h1 : '/' ∉ l) (h2 : '.' ∉ l) :
    majorStrOf l = l := by
  unfold majorStrOf
  rw [findSub_single_none h1, findSub_single_none h2]
  exact List.take_length l

theorem minorStrOf_id {l : List Char} (h : '.' ∉ l) : minorStrOf l = l := by
  unfold minorStrOf
  rw [findSub_single_none h]

theorem stoulCore_nil : stoulCore [] false = .exn .invalidArgument := rfl

theorem stoulL_head_not_digit {c : Char} (r : List Char)
    (hs : ¬ isSpaceC c) (hp : c ≠ '+') (hm : c ≠ '-') (hd : ¬ c.isDigit) :
    stoulL (c :: r) = .exn .invalidArgument := by
  unfold stoulL
  rw [List.dropWhile_cons, if_neg (by simpa using hs)]
  show (if c = '+' then stoulCore r false else if c = '-' then stoulCore r true
    else stoulCore (c :: r) false) = .exn .invalidArgument
  rw [if_neg hp, if_neg hm]
  simp [stoulCore, List.takeWhile_cons, hd]

theorem stoulL_single {c : Char} (hd : ¬ c.isDigit) (hs : ¬ isSpaceC c) :
    stoulL [c] = .exn .invalidArgument := by
  by_cases hp : c = '+'
  · subst hp
    decide
  · by_cases hm : c = '-'
    · subst hm
      decide
    · exact stoulL_head_not_digit [] hs hp hm hd

theorem versionOfTok_http11 : versionOfTok (str "HTTP/1.1") = .ok (1, 1) := by
  decide

theorem requestLineCtor_eq {request start : List Char} {v : Nat × Nat}
    (hlen : ¬ request.length < 16) (ht : trimStart request = .ok start)
    (hv : versionOfTok (afterUri (afterMethod (lineOf start))) = .ok v) :
    requestLineCtor request =
      .ok (⟨methodOf (lineOf start), uriOf (afterMethod (lineOf start)), v⟩,
        consumeLine request) := by
  unfold requestLineCtor
  rw [if_neg hlen, ht]
  simp only []
  rw [hv]

theorem requestLineCtor_exn {request start : List Char} {e : CppExc}
    (hlen : ¬ request.length < 16) (ht : trimStart request = .ok start)
    (hv : versionOfTok (afterUri (afterMethod (lineOf start))) = .exn e) :
    requestLineCtor request = .exn e := by
  unfold requestLineCtor
  rw [if_neg hlen, ht]
  simp only []
  rw [hv]

theorem firstOcc_nil (pat : List Char) : firstOcc pat [] = findSub [] pat := by
  cases pat with
  | nil => rfl
  | cons p ps => rfl

theorem findSub_eq_firstOcc (pat l : List Char) : findSub l pat = firstOcc pat l := by
  induction l with
  | nil => exact (firstOcc_nil pat).symm
  | cons c cs ih =>
    unfold firstOcc
    rw [show (c :: cs).length + 1 = cs.length + 1 + 1 from rfl,
        List.range_succ_eq_map]
    by_cases hpc : leadsWith pat (c :: cs)
    · rw [@List.find?_cons_of_pos Nat (fun i => leadsWith pat (List.drop i (c :: cs))) 0
        (List.map Nat.succ (List.range (cs.length + 1))) hpc]
      unfold findSub
      rw [if_pos hpc]
    · rw [@List.find?_cons_of_neg Nat (fun i => leadsWith pat (List.drop i (c :: cs))) 0
        (List.map Nat.succ (List.range (cs.length + 1))) (by simpa using hpc),
        List.find?_map]
      have hcomp : ((fun i => leadsWith pat (List.drop i (c :: cs))) ∘ Nat.succ) =
          (fun i => leadsWith pat (List.drop i cs)) := by
        funext i
        rfl
      rw [hcomp]
      unfold findSub
      rw [if_neg hpc, ih]
      rfl

theorem locateBody_eq_bodySpec (rem : List Char) : locateBody rem = bodySpec rem := by
  unfold locateBody bodySpec
  rw [findSub_eq_firstOcc, findSub_eq_firstOcc]

/-- Claim C1: for the input buffer `"GET /index.html HTTP/1.1\r\n"` the
Request_Line parsing constructor yields method GET, uri `"/index.html"` and
version (1,1) with the whole line consumed, and serializing that
Request_Line through `operator std::string` reproduces the input
byte-for-byte. -/
theorem claim1_roundtrip_index_html :
    requestLineCtor (str "GET /index.html HTTP/1.1\r\n") =
      .ok (⟨str "GET", str "/index.html", (1, 1)⟩, []) ∧
    rlToString ⟨str "GET", str "/index.html", (1, 1)⟩ =
      str "GET /index.html HTTP/1.1\r\n" := by
  decide

/-- Claim C2: every buffer that is empty or shorter than 16 bytes makes the
Request_Line parsing constructor return early, leaving the object at its
default value (GET, "/", HTTP/1.1) and the buffer untouched. -/
theorem claim2_short_buffer_default (b : List Char) (h : b.length < 16) :
    requestLineCtor b = .ok (defaultRequestLine, b) := by
  unfold requestLineCtor
  rw [if_pos h]

/-- Witness for C2 at the 5-byte buffer `"GET /"`. -/
theorem claim2_witness :
    (str "GET /").length < 16 ∧
      requestLineCtor (str "GET /") = .ok (defaultRequestLine, str "GET /") :=
  ⟨by decide, claim2_short_buffer_default (str "GET /") (by decide)⟩

/-- Claim C9: the 16-byte guard is strict.  The well-formed 16-byte buffer
`"GET / HTTP/1.1\r\n"` is actually parsed: the line is consumed from the
buffer (the silent-default guard would leave the buffer untouched), and the
equally short `"PUT / HTTP/1.1\r\n"` yields the non-default method PUT,
showing 16-byte buffers reach the parser. -/
theorem claim9_minimum_length_parsed :
    requestLineCtor (str "GET / HTTP/1.1\r\n") = .ok (defaultRequestLine, []) ∧
    requestLineCtor (str "PUT / HTTP/1.1\r\n") =
      .ok (⟨str "PUT", str "/", (1, 1)⟩, []) := by
  decide

/-- Claim C10: every buffer of at least 16 bytes consisting entirely of the
trimmed whitespace characters (space, tab, vertical tab, form feed) makes
`find_first_not_of` return `npos`, which `substr` rejects with
`std::out_of_range`; no default and no parsed value is produced. -/
theorem claim10_all_whitespace_raises (b : List Char) (hlen : 16 ≤ b.length)
    (hws : ∀ c ∈ b, c ∈ wsTrim) :
    requestLineCtor b = .exn .outOfRange := by
  unfold requestLineCtor
  rw [if_neg (by omega)]
  unfold trimStart
  rw [findFirstNotOf_none hws]

/-- Witness for C10 at a buffer of sixteen spaces. -/
theorem claim10_witness :
    16 ≤ (List.replicate 16 ' ').length ∧
    (∀ c ∈ List.replicate 16 ' ', c ∈ wsTrim) ∧
      requestLineCtor (List.replicate 16 ' ') = .exn .outOfRange :=
  ⟨by decide, by decide, claim10_all_whitespace_raises _ (by decide) (by decide)⟩

/-- Claim C5: whenever the status line parses, the Response parsing
constructor succeeds (a missing separator is not an error) and its body is
exactly the spec-side `bodySpec` of the constructor's buffer: everything
after the first `"\r\n\r\n"`, else everything after the first `"\n\n"`,
else no body. -/
theorem claim5_body_boundary (buf : List Char) (limit : Nat)
    (vc : (Nat × Nat) × Nat) (h : statusLineVC buf = .ok vc) :
    responseCtor buf limit =
      .ok ⟨vc.2, vc.1, parseHeaders (statusLineRemainder buf) limit,
        bodySpec (statusLineRemainder buf)⟩ := by
  unfold responseCtor
  rw [h]
  simp only []
  rw [locateBody_eq_bodySpec]

/-- Witness for C5 at the spec's example response buffer. -/
theorem claim5_witness :
    statusLineVC (str "HTTP/1.1 200 OK\r\nContent-Length: 5\r\n\r\nhello") =
      .ok ((1, 1), 200) ∧
    responseCtor (str "HTTP/1.1 200 OK\r\nContent-Length: 5\r\n\r\nhello") 100 =
      .ok ⟨(((1 : Nat), (1 : Nat)), (200 : Nat)).2, (((1 : Nat), (1 : Nat)), (200 : Nat)).1,
        parseHeaders
          (statusLineRemainder (str "HTTP/1.1 200 OK\r\nContent-Length: 5\r\n\r\nhello")) 100,
        bodySpec
          (statusLineRemainder (str "HTTP/1.1 200 OK\r\nContent-Length: 5\r\n\r\nhello"))⟩ :=
  ⟨by decide, claim5_body_boundary _ 100 _ (by decide)⟩

/-- Counterexample to C6: a Response parsed from a buffer with version
HTTP/2.0, then mutated with `set_status_code`, is not equal to a
default-constructed Response after `reset()`: the version (2,0) survives
the reset. -/
theorem claim6_counterexample :
    responseCtor (str "HTTP/2.0 404 No\r\n\r\n") 100 = .ok ⟨404, (2, 0), [], []⟩ ∧
    Response.reset ((⟨404, (2, 0), [], []⟩ : Response).set_status_code 500) ≠
      defaultResponse := by
  decide

/-- Claim C6 as amended: `reset()` restores status code 200, clears the
headers and the body, and is idempotent, but it preserves the version
field, so the result differs from a default-constructed Response exactly
in the version. -/
theorem claim6_reset_preserves_version (r : Response) :
    r.reset = { defaultResponse with version := r.version } ∧
      r.reset.reset = r.reset :=
  ⟨rfl, rfl⟩

/-- Claim C8 as amended: for every buffer of at least 16 bytes accepted by
the Request_Line parsing constructor, the buffer afterwards equals the
content that followed the first `"\r\n"`; when the buffer contains no
CRLF, `find` returns `npos` and `npos + 2` wraps to 1, so the buffer is
advanced by exactly one byte rather than being left unconsumed. -/
theorem claim8_consume_rule (b : List Char) (x : Request_Line) (b' : List Char)
    (hlen : 16 ≤ b.length) (h : requestLineCtor b = .ok (x, b')) :
    (∀ p, findSub b crlf = some p → b' = b.drop (p + 2)) ∧
    (findSub b crlf = none → b' = b.drop 1) := by
  have hb' : b' = consumeLine b := by
    unfold requestLineCtor at h
    rw [if_neg (by omega)] at h
    cases ht : trimStart b with
    | exn e => rw [ht] at h; exact absurd h (by simp)
    | ok s =>
      rw [ht] at h
      simp only [] at h
      cases hv : versionOfTok (afterUri (afterMethod (lineOf s))) with
      | exn e => rw [hv] at h; exact absurd h (by simp)
      | ok v =>
        rw [hv] at h
        simp only [] at h
        injection h with h1
        exact (congrArg Prod.snd h1).symm
  constructor
  · intro p hp
    rw [hb']
    unfold consumeLine
    rw [hp]
  · intro hp
    rw [hb']
    unfold consumeLine
    rw [hp]

/-- Witness for C8 at a buffer whose CRLF is followed by `"XYZ"`. -/
theorem claim8_witness :
    (∀ p, findSub (str "GET /index.html HTTP/1.1\r\nXYZ") crlf = some p →
      str "XYZ" = (str "GET /index.html HTTP/1.1\r\nXYZ").drop (p + 2)) ∧
    (findSub (str "GET /index.html HTTP/1.1\r\nXYZ") crlf = none →
      str "XYZ" = (str "GET /index.html HTTP/1.1\r\nXYZ").drop 1) :=
  claim8_consume_rule _ ⟨str "GET", str "/index.html", (1, 1)⟩ _ (by decide) (by decide)

/-- Counterexample to C8 as stated: the 16-byte buffer
`"GET /ab HTTP/1.1"` has no CRLF and is accepted, yet the buffer
afterwards is `"ET /ab HTTP/1.1"` — one byte was consumed, so content is
consumed even though no CRLF exists. -/
theorem claim8_counterexample :
    findSub (str "GET /ab HTTP/1.1") crlf = none ∧
    requestLineCtor (str "GET /ab HTTP/1.1") =
      .ok (⟨str "GET", str "/ab", (1, 1)⟩, str "ET /ab HTTP/1.1") ∧
    str "ET /ab HTTP/1.1" ≠ str "GET /ab HTTP/1.1" := by
  decide

/-- Counterexample to C3 as stated: the 16-letter buffer
`"ABCDEFGHIJKLMNOP"` lacks any request-line structure, yet the
constructor propagates `std::invalid_argument` from `std::stoul` instead
of degrading to the default values. -/
theorem claim3_counterexample :
    requestLineCtor (str "ABCDEFGHIJKLMNOP") = .exn .invalidArgument ∧
    requestLineCtor (str "ABCDEFGHIJKLMNOP") ≠
      .ok (defaultRequestLine, str "ABCDEFGHIJKLMNOP") := by
  decide

/-- Claim C3 as amended: every 16-byte buffer consisting only of letters
(no spaces, slash, dots or digits) reaches the version-parsing step with a
digit-free token, so the constructor raises the numeric-parse failure
`std::invalid_argument` instead of degrading to the default values. -/
theorem claim3_letters_raise (b : List Char) (hlen : b.length = 16)
    (hb : ∀ c ∈ b, c ∈ letters) :
    requestLineCtor b = .exn .invalidArgument := by
  have hnd : ∀ c ∈ letters, ¬ c.isDigit := by decide
  have hnsp : ∀ c ∈ letters, ¬ isSpaceC c := by decide
  have hnw : ∀ c ∈ letters, c ∉ wsTrim := by decide
  have hnr : ∀ c ∈ letters, c ≠ '\r' := by decide
  have hns : ∀ c ∈ letters, c ≠ ' ' := by decide
  have hnsl : ∀ c ∈ letters, c ≠ '/' := by decide
  have hndot : ∀ c ∈ letters, c ≠ '.' := by decide
  have hnp : ∀ c ∈ letters, c ≠ '+' := by decide
  have hnm : ∀ c ∈ letters, c ≠ '-' := by decide
  obtain ⟨c, cs, rfl⟩ : ∃ c cs, b = c :: cs := by
    cases b with
    | nil => simp at hlen
    | cons c cs => exact ⟨c, cs, rfl⟩
  have hcl : c ∈ letters := hb c (List.mem_cons_self c cs)
  have hrb : '\r' ∉ c :: cs := fun hm => hnr _ (hb _ hm) rfl
  have hspb : ' ' ∉ c :: cs := fun hm => hns _ (hb _ hm) rfl
  have hslb : '/' ∉ c :: cs := fun hm => hnsl _ (hb _ hm) rfl
  have hdotb : '.' ∉ c :: cs := fun hm => hndot _ (hb _ hm) rfl
  have hv : versionOfTok (afterUri (afterMethod (lineOf (c :: cs)))) =
      .exn .invalidArgument := by
    rw [lineOf_no_crlf hrb, afterMethod_no_space hspb, afterUri_no_space hspb]
    unfold versionOfTok
    rw [majorStrOf_id hslb hdotb,
      stoulL_head_not_digit cs (hnsp _ hcl) (hnp _ hcl) (hnm _ hcl) (hnd _ hcl)]
  exact requestLineCtor_exn (by omega) (trimStart_cons _ (hnw _ hcl)) hv

/-- Witness for the amended C3 at the 16-letter buffer
`"ABCDEFGHIJKLMNOQ"`. -/
theorem claim3_witness :
    (str "ABCDEFGHIJKLMNOQ").length = 16 ∧
    (∀ c ∈ str "ABCDEFGHIJKLMNOQ", c ∈ letters) ∧
      requestLineCtor (str "ABCDEFGHIJKLMNOQ") = .exn .invalidArgument :=
  ⟨by decide, by decide, claim3_letters_raise _ (by decide) (by decide)⟩

/-- Counterexample to C4 as stated: the buffer `"GET / HTTP/1.5x\r\n"`
has non-numeric text in its minor version, yet no exception is raised:
`std::stoul` parses the leading digits of `"5x"` and the constructor
silently stores version (1,5). -/
theorem claim4_counterexample :
    requestLineCtor (str "GET / HTTP/1.5x\r\n") =
      .ok (⟨str "GET", str "/", (1, 5)⟩, []) ∧
    requestLineCtor (str "GET / HTTP/1.5x\r\n") ≠ .exn .invalidArgument ∧
    requestLineCtor (str "GET / HTTP/1.5x\r\n") ≠ .exn .outOfRange := by
  decide

/-- Claim C4 as amended: for every request line of the shape
`<method> <uri> HTTP/1.<minor>\r\n` (space-free method, CR-free uri,
space- and CR-free minor text) in a buffer of at least 16 bytes, whenever
`std::stoul` rejects the extracted minor substring (as it does for the
claim's `"HTTP/1.x"`), the constructor propagates that exception to the
caller instead of storing a corrupted or defaulted Version; a minor with a
convertible digit prefix is outside this class and is accepted silently,
as the counterexample shows. -/
theorem claim4_minor_rejected_raises (m u w rest : List Char) (e : CppExc)
    (hm0 : m ≠ []) (hm : ∀ c ∈ m, c ∉ ('\r' :: wsTrim))
    (hu : '\r' ∉ u) (hwr : '\r' ∉ w) (hws : ' ' ∉ w)
    (hw : stoulL w = .exn e)
    (hlen : 16 ≤ (m ++ [' '] ++ u ++ [' '] ++ str "HTTP/1." ++ w ++ crlf ++
      rest).length) :
    requestLineCtor (m ++ [' '] ++ u ++ [' '] ++ str "HTTP/1." ++ w ++ crlf ++
      rest) = .exn e := by
  have hms : ' ' ∉ m := fun hmem => (hm _ hmem) (by decide)
  have hmr : '\r' ∉ m := fun hmem => (hm _ hmem) (by decide)
  have hb : m ++ [' '] ++ u ++ [' '] ++ str "HTTP/1." ++ w ++ crlf ++ rest =
      (m ++ ' ' :: (u ++ ' ' :: (str "HTTP/1." ++ w))) ++ '\r' :: '\n' :: rest := by
    simp [crlf]
  have hrL : '\r' ∉ m ++ ' ' :: (u ++ ' ' :: (str "HTTP/1." ++ w)) := by
    intro hmem
    rcases List.mem_append.mp hmem with h1 | h1
    · exact hmr h1
    · rcases List.mem_cons.mp h1 with h2 | h2
      · exact absurd h2 (by decide)
      · rcases List.mem_append.mp h2 with h3 | h3
        · exact hu h3
        · rcases List.mem_cons.mp h3 with h4 | h4
          · exact absurd h4 (by decide)
          · rcases List.mem_append.mp h4 with h5 | h5
            · exact absurd h5 (by decide)
            · exact hwr h5
  have hVs : ' ' ∉ str "HTTP/1." ++ w := by
    intro hmem
    rcases List.mem_append.mp hmem with h1 | h1
    · exact absurd h1 (by decide)
    · exact hws h1
  have hvV : versionOfTok (str "HTTP/1." ++ w) = .exn e := by
    unfold versionOfTok
    rw [show minorStrOf (str "HTTP/1." ++ w) = w from rfl, hw]
    rfl
  rw [hb] at hlen ⊢
  obtain ⟨c, m', rfl⟩ : ∃ c m', m = c :: m' := by
    cases m with
    | nil => exact absurd rfl hm0
    | cons c m' => exact ⟨c, m', rfl⟩
  have hcw : c ∉ wsTrim :=
    fun hwc => (hm c (List.mem_cons_self c m')) (List.mem_cons_of_mem _ hwc)
  have htrim : trimStart (((c :: m') ++ ' ' :: (u ++ ' ' :: (str "HTTP/1." ++ w))) ++
      '\r' :: '\n' :: rest) =
      .ok (((c :: m') ++ ' ' :: (u ++ ' ' :: (str "HTTP/1." ++ w))) ++
        '\r' :: '\n' :: rest) :=
    trimStart_cons _ hcw
  have hline : lineOf (((c :: m') ++ ' ' :: (u ++ ' ' :: (str "HTTP/1." ++ w))) ++
      '\r' :: '\n' :: rest) = (c :: m') ++ ' ' :: (u ++ ' ' :: (str "HTTP/1." ++ w)) :=
    lineOf_append rest hrL
  have hv : versionOfTok (afterUri (afterMethod (lineOf (((c :: m') ++ ' ' ::
      (u ++ ' ' :: (str "HTTP/1." ++ w))) ++ '\r' :: '\n' :: rest)))) = .exn e := by
    rw [hline, afterMethod_append _ hms, afterUri_append _ hVs]
    exact hvV
  exact requestLineCtor_exn (by omega) htrim hv

/-- Witness for the amended C4 at the claim's own example
`"GET / HTTP/1.x\r\n"` (method GET, uri "/", minor text "x", which
`std::stoul` rejects with `std::invalid_argument`). -/
theorem claim4_rejected_witness :
    (str "GET" ≠ []) ∧ (∀ c ∈ str "GET", c ∉ ('\r' :: wsTrim)) ∧
    ('\r' ∉ str "/") ∧ ('\r' ∉ str "x") ∧ (' ' ∉ str "x") ∧
    stoulL (str "x") = .exn .invalidArgument ∧
    16 ≤ (str "GET" ++ [' '] ++ str "/" ++ [' '] ++ str "HTTP/1." ++ str "x" ++
      crlf ++ ([] : List Char)).length ∧
    requestLineCtor (str "GET" ++ [' '] ++ str "/" ++ [' '] ++ str "HTTP/1." ++
      str "x" ++ crlf ++ ([] : List Char)) = .exn .invalidArgument :=
  ⟨by decide, by decide, by decide, by decide, by decide, by decide, by decide,
    claim4_minor_rejected_raises (str "GET") (str "/") (str "x") [] .invalidArgument
      (by decide) (by decide) (by decide) (by decide) (by decide) (by decide)
      (by decide)⟩

/-- Claim C7: for every request line `m ++ " " ++ u ++ " HTTP/1.1\r\n"`
with a space-free method and an arbitrary URI token (which may contain
internal spaces), the remainder after the method is split at the last
space, so the URI field captures the full spaced token and the version
parses as (1,1); the buffer is advanced past the line. -/
theorem claim7_last_space_split (m u rest : List Char) (hm0 : m ≠ [])
    (hm : ∀ c ∈ m, c ∉ ('\r' :: wsTrim)) (hu : '\r' ∉ u)
    (hlen : 16 ≤ (m ++ [' '] ++ u ++ [' '] ++ str "HTTP/1.1" ++ crlf ++ rest).length) :
    requestLineCtor (m ++ [' '] ++ u ++ [' '] ++ str "HTTP/1.1" ++ crlf ++ rest) =
      .ok (⟨m, u, (1, 1)⟩, rest) := by
  have hms : ' ' ∉ m := fun hmem => (hm _ hmem) (by decide)
  have hmr : '\r' ∉ m := fun hmem => (hm _ hmem) (by decide)
  have hVs : ' ' ∉ str "HTTP/1.1" := by decide
  have hVr : '\r' ∉ str "HTTP/1.1" := by decide
  have hb : m ++ [' '] ++ u ++ [' '] ++ str "HTTP/1.1" ++ crlf ++ rest =
      (m ++ ' ' :: (u ++ ' ' :: str "HTTP/1.1")) ++ '\r' :: '\n' :: rest := by
    simp [crlf]
  have hrL : '\r' ∉ m ++ ' ' :: (u ++ ' ' :: str "HTTP/1.1") := by
    intro hmem
    rcases List.mem_append.mp hmem with h1 | h1
    · exact hmr h1
    · rcases List.mem_cons.mp h1 with h2 | h2
      · exact absurd h2 (by decide)
      · rcases List.mem_append.mp h2 with h3 | h3
        · exact hu h3
        · rcases List.mem_cons.mp h3 with h4 | h4
          · exact absurd h4 (by decide)
          · exact hVr h4
  rw [hb] at hlen ⊢
  obtain ⟨c, m', rfl⟩ : ∃ c m', m = c :: m' := by
    cases m with
    | nil => exact absurd rfl hm0
    | cons c m' => exact ⟨c, m', rfl⟩
  have hcw : c ∉ wsTrim :=
    fun hw => (hm c (List.mem_cons_self c m')) (List.mem_cons_of_mem _ hw)
  have htrim : trimStart (((c :: m') ++ ' ' :: (u ++ ' ' :: str "HTTP/1.1")) ++
      '\r' :: '\n' :: rest) =
      .ok (((c :: m') ++ ' ' :: (u ++ ' ' :: str "HTTP/1.1")) ++ '\r' :: '\n' :: rest) :=
    trimStart_cons _ hcw
  have hline : lineOf (((c :: m') ++ ' ' :: (u ++ ' ' :: str "HTTP/1.1")) ++
      '\r' :: '\n' :: rest) = (c :: m') ++ ' ' :: (u ++ ' ' :: str "HTTP/1.1") :=
    lineOf_append rest hrL
  have hv : versionOfTok (afterUri (afterMethod (lineOf (((c :: m') ++ ' ' ::
      (u ++ ' ' :: str "HTTP/1.1")) ++ '\r' :: '\n' :: rest)))) = .ok (1, 1) := by
    rw [hline, afterMethod_append _ hms, afterUri_append _ hVs]
    exact versionOfTok_http11
  rw [requestLineCtor_eq (by omega) htrim hv, hline, methodOf_append _ hms,
    afterMethod_append _ hms, uriOf_append _ hVs, consumeLine_append rest hrL]

/-- Witness for C7 at the claim's example `"GET /a b HTTP/1.1\r\n"`,
whose URI field captures `"/a b"`. -/
theorem claim7_witness :
    (str "GET" ≠ []) ∧
    (∀ c ∈ str "GET", c ∉ ('\r' :: wsTrim)) ∧ ('\r' ∉ str "/a b") ∧
    16 ≤ (str "GET" ++ [' '] ++ str "/a b" ++ [' '] ++ str "HTTP/1.1" ++ crlf ++
      ([] : List Char)).length ∧
    requestLineCtor (str "GET" ++ [' '] ++ str "/a b" ++ [' '] ++ str "HTTP/1.1" ++
        crlf ++ ([] : List Char)) =
      .ok (⟨str "GET", str "/a b", (1, 1)⟩, []) :=
  ⟨by decide, by decide, by decide, by decide,
    claim7_last_space_split (str "GET") (str "/a b") [] (by decide) (by decide)
      (by decide) (by decide)⟩

end HttpSpec
